import Mathlib

/-!
Verification of the retrieval and hybrid-scoring subsystem of a minimal
RAG pipeline (sources: `main.py`, `vector_db.py`, `data_loader.py`,
`custom_types.py`, `viz_utils.py`).

The embedding is shallow: Python floats are modelled as rationals (`ℚ`),
Python dicts with fixed keys as structures with `Option` fields where a key
may be absent, and the external collaborators (embedding service, the qdrant
client) as explicit function parameters or list-level models of their
documented behaviour.  Fallible code returns `Except`; the network calls a
handler issues are recorded in an explicit trace, so that "no network call
is made" is the statement that the trace is empty.
-/

/-- A scored search candidate as built by `QdrantStorage.search_vectors`
(`vector_db.py` lines 43-52): payload text, payload source id and the
similarity score. -/
structure SearchCandidate where
  text : String
  source : String
  score : ℚ
deriving DecidableEq, Repr

/-- The result record of the query pipeline (`custom_types.py`:
`RAGSearchResult`, fields `contexts` and `sources`). -/
structure RAGSearchResult where
  contexts : List String
  sources : List String
deriving DecidableEq, Repr

/-- Character-list helper: does `needle` match `hay` at its head?
(Embeds Python's substring primitive used by `term in source_lower`.) -/
def charsMatchAt : List Char → List Char → Bool
  | [], _ => true
  | _ :: _, [] => false
  | a :: as, b :: bs => a == b && charsMatchAt as bs

/-- Character-list helper: does `needle` occur contiguously in `hay`?
(Embeds Python's `needle in hay` on strings.) -/
def hasSubList (needle : List Char) : List Char → Bool
  | [] => needle.isEmpty
  | b :: bs => charsMatchAt needle (b :: bs) || hasSubList needle bs

/-- Python's `needle in hay` substring test on strings. -/
def strContains (needle hay : String) : Bool :=
  hasSubList needle.toList hay.toList

/-- The query terms of `_search` (`main.py` line 59):
`{t for t in question.lower().split() if len(t) >= 3}` — lowercase the
question, split on whitespace runs (Python `str.split()` discards empty
pieces), keep terms of length at least 3, as a set (modelled as a
duplicate-free list). -/
def queryTerms (question : String) : List String :=
  (((question.toLower.split (fun c => c.isWhitespace)).filter
    (fun t => t ≠ "")).filter (fun t => 3 ≤ t.length)).dedup

/-- The per-candidate match count of `_search` (`main.py` line 63):
`sum(1 for term in terms if term in source_lower)` with
`source_lower = r["source"].lower()`. -/
def matchCount (terms : List String) (source : String) : Nat :=
  (terms.filter (fun t => strContains t source.toLower)).length

/-- The lexical boost of `_search` (`main.py` lines 61-65): when at least one
term matches, `r["score"] += 0.5 + (matches * 0.1)`; otherwise the candidate
is left untouched. -/
def boostCandidate (terms : List String) (r : SearchCandidate) : SearchCandidate :=
  let mcount := matchCount terms r.source
  if 0 < mcount then
    { r with score := r.score + ((1 : ℚ)/2 + (mcount : ℚ) * ((1 : ℚ)/10)) }
  else
    r

/-- C1: the lexical rescoring rule of `_search`.  With `terms` the tokenized
question (lowercased, whitespace-split, terms shorter than 3 characters
dropped), a candidate whose source matches `m ≥ 1` terms gets adjusted score
`score + 0.5 + 0.1·m`, a candidate with zero matches is unchanged, the
adjusted score is never below the original, and boosting never edits the
candidate's text or source. -/
theorem boost_adjusted_score_rule (question : String) (r : SearchCandidate) :
    ((boostCandidate (queryTerms question) r).score =
      if 0 < matchCount (queryTerms question) r.source then
        r.score + ((1 : ℚ)/2 + (matchCount (queryTerms question) r.source : ℚ) * ((1 : ℚ)/10))
      else r.score)
    ∧ r.score ≤ (boostCandidate (queryTerms question) r).score
    ∧ (boostCandidate (queryTerms question) r).text = r.text
    ∧ (boostCandidate (queryTerms question) r).source = r.source := by
  unfold boostCandidate
  by_cases h : 0 < matchCount (queryTerms question) r.source
  · simp only [h, if_true]
    refine ⟨by trivial, ?_, by trivial, by trivial⟩
    have hm : (0 : ℚ) ≤ (matchCount (queryTerms question) r.source : ℚ) := by positivity
    nlinarith
  · simp only [h, if_false]
    exact ⟨by trivial, le_refl _, by trivial, by trivial⟩

/-- The descending stable re-sort of `_search` (`main.py` line 67):
`results.sort(key=lambda x: x["score"], reverse=True)` — Python's sort is
stable, and `reverse=True` reverses the comparison, not the tie order, so it
is a stable sort by the relation "left score is at least right score",
modelled by Lean's stable `List.mergeSort`. -/
def sortByScoreDesc (results : List SearchCandidate) : List SearchCandidate :=
  results.mergeSort (fun a b => b.score ≤ a.score)

lemma scoreDesc_trans : ∀ x y z : SearchCandidate,
    decide (y.score ≤ x.score) = true → decide (z.score ≤ y.score) = true →
    decide (z.score ≤ x.score) = true := by
  intro x y z h1 h2
  simp only [decide_eq_true_eq] at *
  exact le_trans h2 h1

lemma scoreDesc_total : ∀ x y : SearchCandidate,
    (decide (y.score ≤ x.score) || decide (x.score ≤ y.score)) = true := by
  intro x y
  rcases le_total y.score x.score with h | h <;> simp [h]

/-- C3: the re-sort of the boosted candidate list is by adjusted score
descending and stable — the sorted output is pairwise score-descending, is a
permutation of its input, and for every score value the sublist of candidates
carrying exactly that score is unchanged, i.e. candidates with equal adjusted
score keep their relative order from the list the store returned. -/
theorem sort_stable_by_score (l : List SearchCandidate) (c : ℚ) :
    (sortByScoreDesc l).Pairwise (fun a b => b.score ≤ a.score)
    ∧ (sortByScoreDesc l).filter (fun r => r.score == c)
        = l.filter (fun r => r.score == c)
    ∧ (sortByScoreDesc l).Perm l := by
  refine ⟨?_, ?_, List.mergeSort_perm l _⟩
  · have h := @List.sorted_mergeSort SearchCandidate
      (fun a b : SearchCandidate => decide (b.score ≤ a.score))
      scoreDesc_trans scoreDesc_total l
    exact h.imp (fun hab => of_decide_eq_true hab)
  · have hBpair : (l.filter (fun r => r.score == c)).Pairwise
        (fun a b : SearchCandidate => decide (b.score ≤ a.score) = true) := by
      apply List.pairwise_of_forall_mem_list
      intro a ha b hb
      have hac : a.score = c := by
        have := (List.mem_filter.mp ha).2
        simpa using this
      have hbc : b.score = c := by
        have := (List.mem_filter.mp hb).2
        simpa using this
      simp [hac, hbc]
    have hBsub : (l.filter (fun r => r.score == c)).Sublist (sortByScoreDesc l) :=
      List.sublist_mergeSort scoreDesc_trans scoreDesc_total hBpair
        (List.filter_sublist l)
    have hperm : ((sortByScoreDesc l).filter (fun r => r.score == c)).Perm
        (l.filter (fun r => r.score == c)) :=
      (List.mergeSort_perm l _).filter _
    have hBB : (l.filter (fun r => r.score == c)).filter (fun r => r.score == c)
        = l.filter (fun r => r.score == c) := by
      apply List.filter_eq_self.mpr
      intro a ha
      exact (List.mem_filter.mp ha).2
    have hBA : (l.filter (fun r => r.score == c)).Sublist
        ((sortByScoreDesc l).filter (fun r => r.score == c)) := by
      have := hBsub.filter (fun r => r.score == c)
      rwa [hBB] at this
    exact (hBA.eq_of_length hperm.length_eq.symm).symm

lemma boostCandidate_text (t : List String) (r : SearchCandidate) :
    (boostCandidate t r).text = r.text := by
  unfold boostCandidate
  dsimp only
  split <;> rfl

lemma boostCandidate_source (t : List String) (r : SearchCandidate) :
    (boostCandidate t r).source = r.source := by
  unfold boostCandidate
  dsimp only
  split <;> rfl

/-- The tail of `_search` (`main.py` lines 57-73) after the store query:
boost every candidate, stable-sort descending by adjusted score, truncate to
the first `top_k`, and build `RAGSearchResult` with the texts of the kept
candidates and the set of their source identifiers (Python's
`list(set(...))`, modelled as a duplicate-free list). -/
def searchStep (question : String) (results : List SearchCandidate)
    (top_k : Nat) : RAGSearchResult :=
  let terms := queryTerms question
  let boosted := results.map (boostCandidate terms)
  let top := (sortByScoreDesc boosted).take top_k
  { contexts := top.map (fun r => r.text),
    sources := (top.map (fun r => r.source)).dedup }

/-- C4: the retrieval result keeps exactly `min top_k n` contexts where `n`
is the number of candidates the store returned; every identifier in
`sources` is the source of a returned candidate whose text is among the
contexts; and zero candidates give the empty result, not an error. -/
theorem topk_truncation_result (question : String)
    (results : List SearchCandidate) (top_k : Nat) :
    (searchStep question results top_k).contexts.length
        = min top_k results.length
    ∧ (∀ s ∈ (searchStep question results top_k).sources,
        ∃ r ∈ results, r.source = s
          ∧ r.text ∈ (searchStep question results top_k).contexts)
    ∧ searchStep question [] top_k = { contexts := [], sources := [] } := by
  refine ⟨?_, ?_, ?_⟩
  · simp [searchStep, sortByScoreDesc, List.length_take, List.length_mergeSort]
  · intro s hs
    simp only [searchStep, List.mem_dedup] at hs
    obtain ⟨r', hr', hsrc⟩ := List.mem_map.mp hs
    have hr'sorted : r' ∈ sortByScoreDesc
        (results.map (boostCandidate (queryTerms question))) :=
      (List.take_sublist _ _).mem hr'
    have hr'boosted : r' ∈ results.map (boostCandidate (queryTerms question)) :=
      List.mem_mergeSort.mp hr'sorted
    obtain ⟨r, hr, hb⟩ := List.mem_map.mp hr'boosted
    refine ⟨r, hr, ?_, ?_⟩
    · rw [← hsrc, ← hb, boostCandidate_source]
    · have : r.text = r'.text := by rw [← hb, boostCandidate_text]
      rw [this]
      simp only [searchStep]
      exact List.mem_map.mpr ⟨r', hr', rfl⟩
  · simp [searchStep, sortByScoreDesc, List.mergeSort_nil]

/-- A stored record's payload (`main.py` line 38):
`{"source_id": source_id, "text": chunks[i]}`. -/
structure RecordPayload where
  source_id : String
  text : String
deriving DecidableEq, Repr

/-- A persisted vector record: the vector and payload behind one point id. -/
structure StoredRecord where
  vector : List ℚ
  payload : RecordPayload
deriving DecidableEq, Repr

/-- The collection as a mapping from point id to the stored record; `none`
means no record with that id exists.  Qdrant's upsert overwrites the record
carrying the same id. -/
def Store := String → Option StoredRecord

/-- Overwrite-by-id insertion of a single point. -/
def upsertOne (st : Store) (id : String) (rec : StoredRecord) : Store :=
  fun k => if k = id then some rec else st k

/-- `QdrantStorage.upsert_vectors` (`vector_db.py` lines 23-25): build one
point per index `i` of `ids` from positional `ids[i]`, `vectors[i]`,
`payloads[i]`, and upsert them all (id collision overwrites). -/
def upsert_vectors (st : Store) (ids : List String)
    (vectors : List (List ℚ)) (payloads : List RecordPayload) : Store :=
  (((List.range ids.length).map (fun i =>
      (ids.getD i "", StoredRecord.mk (vectors.getD i [])
        (payloads.getD i ⟨"", ""⟩))))).foldl
    (fun s pt => upsertOne s pt.1 pt.2) st

/-- The deterministic chunk name of `_upsert` (`main.py` line 37): the string
`f"{source_id}:{i}"` that is fed to `uuid.uuid5(uuid.NAMESPACE_URL, ...)`. -/
def mkChunkName (source_id : String) (i : Nat) : String :=
  source_id ++ ":" ++ toString i

/-- The record ids of one ingestion (`main.py` line 37), parametrised by the
pure function `u` standing for `uuid.uuid5(uuid.NAMESPACE_URL, ·)`. -/
def chunkIds (u : String → String) (source_id : String) (n : Nat) : List String :=
  (List.range n).map (fun i => u (mkChunkName source_id i))

/-- The `embed-and-upsert` step `_upsert` of `RAG: Ingest` (`main.py` lines
32-41): embed the chunks (the embedding service is the pure parameter
`embed`), derive the ids with `u` (= `uuid5(NAMESPACE_URL, ·)`), build the
payloads, upsert, and report the number of chunks. -/
def ingestUpsert (u : String → String) (embed : List String → List (List ℚ))
    (st : Store) (source_id : String) (chunks : List String) : Store × Nat :=
  let vecs := embed chunks
  let ids := chunkIds u source_id chunks.length
  let payloads := (List.range chunks.length).map
    (fun i => RecordPayload.mk source_id (chunks.getD i ""))
  (upsert_vectors st ids vecs payloads, chunks.length)

lemma foldl_upsert_lookup (pts : List (String × StoredRecord)) (st : Store)
    (k : String) :
    (pts.foldl (fun s pt => upsertOne s pt.1 pt.2) st) k =
      pts.foldl (fun a pt => if pt.1 = k then some pt.2 else a) (st k) := by
  induction pts generalizing st with
  | nil => rfl
  | cons a pts ih =>
    simp only [List.foldl_cons]
    rw [ih]
    have : (upsertOne st a.1 a.2) k = if a.1 = k then some a.2 else st k := by
      unfold upsertOne
      by_cases h : k = a.1
      · simp [h]
      · have h2 : ¬ a.1 = k := fun he => h he.symm
        simp [h, h2]
    rw [this]

lemma lastWrite_of_mem (pts : List (String × StoredRecord)) (k : String)
    (h : ∃ pt ∈ pts, pt.1 = k) (a1 a2 : Option StoredRecord) :
    pts.foldl (fun a pt => if pt.1 = k then some pt.2 else a) a1 =
      pts.foldl (fun a pt => if pt.1 = k then some pt.2 else a) a2 := by
  induction pts generalizing a1 a2 with
  | nil => obtain ⟨pt, hpt, _⟩ := h; exact absurd hpt (List.not_mem_nil pt)
  | cons p pts ih =>
    simp only [List.foldl_cons]
    by_cases hmem : ∃ pt ∈ pts, pt.1 = k
    · exact ih hmem _ _
    · have hp : p.1 = k := by
        obtain ⟨pt, hpt, hk⟩ := h
        rcases List.mem_cons.mp hpt with he | hin
        · rw [← he]; exact hk
        · exact absurd ⟨pt, hin, hk⟩ hmem
      simp [hp]

lemma lastWrite_of_not_mem (pts : List (String × StoredRecord)) (k : String)
    (h : ∀ pt ∈ pts, pt.1 ≠ k) (a : Option StoredRecord) :
    pts.foldl (fun acc pt => if pt.1 = k then some pt.2 else acc) a = a := by
  induction pts generalizing a with
  | nil => rfl
  | cons p pts ih =>
    simp only [List.foldl_cons]
    have hp : p.1 ≠ k := h p (List.mem_cons_self p pts)
    rw [if_neg hp]
    exact ih (fun pt hpt => h pt (List.mem_cons_of_mem p hpt)) a

lemma foldl_upsert_idem (pts : List (String × StoredRecord)) (st : Store) :
    (pts.foldl (fun s pt => upsertOne s pt.1 pt.2)
      (pts.foldl (fun s pt => upsertOne s pt.1 pt.2) st)) =
    pts.foldl (fun s pt => upsertOne s pt.1 pt.2) st := by
  funext k
  rw [foldl_upsert_lookup, foldl_upsert_lookup]
  by_cases h : ∃ pt ∈ pts, pt.1 = k
  · exact lastWrite_of_mem pts k h _ _
  · push_neg at h
    rw [lastWrite_of_not_mem pts k h, lastWrite_of_not_mem pts k h]

/-- C2: re-ingestion is idempotent.  The record ids of an ingestion are the
pure function `u` (= `uuid5(NAMESPACE_URL, ·)`) of `"{source_id}:{i}"`, so
both ingestions of the same `(source_id, chunks)` produce identical id
lists, and — the store upserting by id — running the `embed-and-upsert` step
twice leaves exactly the store of a single run (and reports the same count). -/
theorem ingest_idempotent (u : String → String)
    (embed : List String → List (List ℚ)) (st : Store) (source_id : String)
    (chunks : List String) :
    (∀ i < chunks.length,
      (chunkIds u source_id chunks.length).getD i ""
        = u (mkChunkName source_id i))
    ∧ (ingestUpsert u embed
        (ingestUpsert u embed st source_id chunks).1 source_id chunks)
      = (ingestUpsert u embed st source_id chunks) := by
  constructor
  · intro i hi
    unfold chunkIds
    rw [List.getD_eq_getElem?_getD]
    simp [hi]
  · unfold ingestUpsert upsert_vectors
    simp only [Prod.mk.injEq, and_true]
    exact foldl_upsert_idem _ st

/-- The scroll loop shared by `QdrantStorage.list_sources` (`vector_db.py`
lines 73-91) and `get_visualization_data` (`viz_utils.py` lines 15-28):
repeatedly call `client.scroll(..., limit=100, offset=next_offset)`,
collect each batch, and stop when `next_offset` is `None`.  The qdrant
client's cursor is modelled as a position into the collection (as a stable
list of records): a scroll at offset `off` returns the next 100 records and
the cursor `off + 100` when records remain beyond the batch, else `None` —
here the `None` case is the terminating branch of the recursion. -/
def scanFrom (coll : List StoredRecord) (off : Nat) : List StoredRecord :=
  if _h : off + 100 < coll.length then
    (coll.drop off).take 100 ++ scanFrom coll (off + 100)
  else
    (coll.drop off).take 100
termination_by coll.length - off
decreasing_by omega

/-- The full paginated scan: the loop started with `next_offset = None`
(modelled as position 0). -/
def scan_all (coll : List StoredRecord) : List StoredRecord :=
  scanFrom coll 0

lemma scanFrom_eq_drop_aux (coll : List StoredRecord) :
    ∀ n off, coll.length - off = n → scanFrom coll off = coll.drop off := by
  intro n
  induction n using Nat.strong_induction_on with
  | h n ih =>
    intro off hoff
    by_cases h : off + 100 < coll.length
    · rw [scanFrom, dif_pos h,
        ih (coll.length - (off + 100)) (by omega) (off + 100) rfl,
        ← List.drop_drop, List.take_append_drop]
    · rw [scanFrom, dif_neg h]
      apply List.take_of_length_le
      rw [List.length_drop]
      omega

lemma scanFrom_eq_drop (coll : List StoredRecord) (off : Nat) :
    scanFrom coll off = coll.drop off :=
  scanFrom_eq_drop_aux coll (coll.length - off) off rfl

/-- A concrete 250-record collection with pairwise distinct records. -/
def exampleColl : List StoredRecord :=
  (List.range 250).map (fun (i : ℕ) => StoredRecord.mk [(i : ℚ)] ⟨"doc.pdf", toString i⟩)

/-- C5: the paginated full scan with page size 100 terminates (it is a total
function) and yields every record of the collection exactly once and in
order — the scan equals the collection itself; in particular the 250-record
example collection yields exactly its 250 pairwise-distinct records. -/
theorem scan_all_exact (coll : List StoredRecord) :
    scan_all coll = coll
    ∧ scan_all exampleColl = exampleColl
    ∧ (scan_all exampleColl).length = 250
    ∧ (scan_all exampleColl).Nodup := by
  have hgen : ∀ l : List StoredRecord, scan_all l = l := by
    intro l
    unfold scan_all
    rw [scanFrom_eq_drop, List.drop_zero]
  have hnodup : exampleColl.Nodup := by
    unfold exampleColl
    refine List.Nodup.map ?_ (List.nodup_range 250)
    intro a b hab
    have hv : [(a : ℚ)] = [(b : ℚ)] := congrArg StoredRecord.vector hab
    have : (a : ℚ) = (b : ℚ) := by injection hv
    exact_mod_cast this
  refine ⟨hgen coll, hgen _, ?_, by rw [hgen]; exact hnodup⟩
  rw [hgen]
  unfold exampleColl
  rw [List.length_map, List.length_range]

/-- The similarity metric of the qdrant collection configuration
(`vector_db.py` line 12 uses `Distance.COSINE`). -/
inductive VectorDistance
  | cosine
deriving DecidableEq, Repr

/-- A collection's vector configuration: `VectorParams(size=..., distance=...)`. -/
structure CollectionConfig where
  size : Nat
  distance : VectorDistance
deriving DecidableEq, Repr

/-- The error a fatal configuration check on store open would raise; the
specification demands it but `QdrantStorage.__init__` never produces it. -/
inductive InitError
  | dimensionMismatch
deriving DecidableEq, Repr

/-- `QdrantStorage.__init__` (`vector_db.py` lines 5-13): given the
pre-existing collection (`none` when `collection_exists` is false) and the
configured dimension, it creates the collection with `(dim, cosine)` when
absent; when the collection exists it performs no check at all and opens
the store with the existing configuration unchanged. -/
def qdrantStorageInit (existing : Option CollectionConfig) (dim : Nat) :
    Except InitError CollectionConfig :=
  match existing with
  | some cfg => .ok cfg
  | none => .ok { size := dim, distance := .cosine }

/-- C6 (code evaluated at the failing input): opening the store over an
existing collection of dimension 100 with configured dimension 2560
succeeds and keeps the mismatched collection — no fatal configuration error
is raised, contradicting the claim; the creation half of the claim does
hold: an absent collection is created with the configured dimension and
the cosine metric. -/
theorem storage_init_silently_ignores_dim_mismatch :
    qdrantStorageInit (some ⟨100, .cosine⟩) 2560 = .ok ⟨100, .cosine⟩
    ∧ (∀ existing dim, ∃ cfg, qdrantStorageInit existing dim = .ok cfg)
    ∧ qdrantStorageInit none 2560 = .ok ⟨2560, .cosine⟩ := by
  refine ⟨rfl, ?_, rfl⟩
  intro existing dim
  cases existing with
  | none => exact ⟨_, rfl⟩
  | some cfg => exact ⟨cfg, rfl⟩

/-- A network call of the pipeline: one embedding-service request, one
store query, or one store upsert.  A handler's trace lists its calls in
order. -/
inductive NetCall
  | embedCall (texts : List String)
  | storeQuery (vector : List ℚ)
  | storeUpsert (n : Nat)
deriving DecidableEq, Repr

/-- The error taxonomy of the handlers: `rag_query_pdf_ai` raises on a
missing/empty question (`main.py` lines 75-77), `load_and_chunk_pdf` on a
document with no extractable text (`data_loader.py` lines 21-22); the
source raises `ValueError` in both places, which the specification names
`MissingQuestionError` and `EmptyDocumentError`. -/
inductive RagError
  | missingQuestion
  | emptyDocument
deriving DecidableEq, Repr

/-- `embed_texts` (`data_loader.py` lines 28-33): issue one request to the
embedding service with the whole input batch and return one vector per
response item.  The service is the parameter `svc`; the returned trace
records that the request was issued.  There is no guard on the input: the
call happens for every input, the empty list included. -/
def embed_texts (svc : List String → List (List ℚ)) (texts : List String) :
    List (List ℚ) × List NetCall :=
  (svc texts, [NetCall.embedCall texts])

/-- C9 (code evaluated at the failing input): on the empty input sequence
`embed_texts` still issues the embedding-service request (the trace holds
the network call with input `[]`) instead of failing fast; and whenever the
service honours its contract of one vector per input, the result has
exactly one vector per input text. -/
theorem embed_texts_empty_input_still_calls (svc : List String → List (List ℚ)) :
    (embed_texts svc []).2 = [NetCall.embedCall []]
    ∧ (∀ texts, (svc texts).length = texts.length →
        ((embed_texts svc texts).1).length = texts.length) := by
  exact ⟨rfl, fun texts h => h⟩

/-- The extracted page texts of `load_and_chunk_pdf` (`data_loader.py` line
20): `[d.text for d in docs if getattr(d, 'text', None)]` — each document's
optional text attribute, kept when present and non-empty (Python
truthiness). -/
def extractTexts (docTexts : List (Option String)) : List String :=
  docTexts.filterMap (fun t =>
    match t with
    | some s => if s = "" then none else some s
    | none => none)

/-- `load_and_chunk_pdf` (`data_loader.py` lines 18-26): extract the page
texts, raise when none were extracted or all are whitespace-only, else
split every page with the sentence splitter (the external splitter is the
parameter `split`) and concatenate the chunks in page order. -/
def load_and_chunk_pdf (split : String → List String)
    (docTexts : List (Option String)) : Except RagError (List String) :=
  let texts := extractTexts docTexts
  if texts.isEmpty || texts.all (fun t => t.trim = "") then
    .error .emptyDocument
  else
    .ok ((texts.map split).flatten)

/-- The `RAG: Ingest` handler (`main.py` lines 25-45): the `load-and-chunk`
step runs `load_and_chunk_pdf`; an exception there propagates and the
`embed-and-upsert` step never runs.  Otherwise `_upsert` embeds the chunks
(one service call) and upserts the records (one store call), returning the
chunk count. -/
def rag_inngest_pdf (split : String → List String)
    (embed : List String → List (List ℚ)) (u : String → String)
    (docTexts : List (Option String)) (source_id : String) (st : Store) :
    Except RagError (Store × Nat) × List NetCall :=
  match load_and_chunk_pdf split docTexts with
  | .error e => (.error e, [])
  | .ok chunks =>
      (.ok (ingestUpsert u embed st source_id chunks),
       [NetCall.embedCall chunks, NetCall.storeUpsert chunks.length])

/-- C8: when extraction yields no text at all, or only whitespace-only
texts, the ingestion handler surfaces `EmptyDocumentError` and makes no
network call — nothing is embedded and nothing is upserted, for any
splitter, embedding service, id scheme, source id and prior store. -/
theorem empty_document_rejected (split : String → List String)
    (embed : List String → List (List ℚ)) (u : String → String)
    (docTexts : List (Option String)) (source_id : String) (st : Store)
    (h : extractTexts docTexts = []
         ∨ ∀ t ∈ extractTexts docTexts, t.trim = "") :
    rag_inngest_pdf split embed u docTexts source_id st
      = (.error .emptyDocument, []) := by
  have hcond : ((extractTexts docTexts).isEmpty
      || (extractTexts docTexts).all (fun t => t.trim = "")) = true := by
    rcases h with h | h
    · simp [h]
    · simp only [Bool.or_eq_true]
      right
      exact List.all_eq_true.mpr (fun t ht => by simp [h t ht])
  simp [rag_inngest_pdf, load_and_chunk_pdf, hcond]

/-- C8 witness: a PDF with one empty-text page and one page carrying no
text attribute extracts zero texts and is rejected with
`EmptyDocumentError` and an empty call trace. -/
theorem empty_document_rejected_witness :
    rag_inngest_pdf (fun t => [t]) (fun c => c.map (fun _ => []))
      (fun n => n) [some "", none] "doc.pdf" (fun _ => none)
      = (.error .emptyDocument, []) :=
  empty_document_rejected _ _ _ _ _ _ (Or.inl rfl)

/-- The event data of the query trigger: an optional `question` and the
`top_k` parameter (`int(ctx.event.data.get("top_k", 15))`, already
resolved to a number by the caller model). -/
structure QueryEventData where
  question : Option String
  top_k : Nat
deriving DecidableEq, Repr

/-- The `RAG: QueryPDF` handler up to retrieval (`main.py` lines 51-81):
check the question first — `if not question: raise ValueError(...)`, which
fires both on an absent key and on the empty string (Python truthiness) —
and only then run `_search`: embed the question (one service call via
`embed_texts`), query the store broadly (one store call, the store's
ranked reply is the parameter `storeFn`), and post-process with
`searchStep`.  The trace lists the network calls actually issued. -/
def rag_query_pdf_ai (embedFn : List String → List (List ℚ))
    (storeFn : List ℚ → List SearchCandidate) (data : QueryEventData) :
    Except RagError RAGSearchResult × List NetCall :=
  match data.question with
  | none => (.error .missingQuestion, [])
  | some q =>
    if q = "" then
      (.error .missingQuestion, [])
    else
      let embedded := embed_texts embedFn [q]
      let qv := embedded.1.getD 0 []
      let results := storeFn qv
      (.ok (searchStep q results data.top_k),
       embedded.2 ++ [NetCall.storeQuery qv])

/-- C7: a query trigger whose event data has no question, or the empty
string as question, is rejected with the missing-question error and an
empty network trace — no embedding call and no store call is issued, for
every behaviour of the embedding service and of the store. -/
theorem missing_question_rejected_before_network
    (embedFn : List String → List (List ℚ))
    (storeFn : List ℚ → List SearchCandidate) (data : QueryEventData)
    (h : data.question = none ∨ data.question = some "") :
    rag_query_pdf_ai embedFn storeFn data
      = (.error .missingQuestion, []) := by
  rcases h with h | h <;> simp [rag_query_pdf_ai, h]

/-- C7 witness: the concrete trigger with no question at all is rejected
with an empty call trace. -/
theorem missing_question_rejected_before_network_witness :
    rag_query_pdf_ai (fun _ => []) (fun _ => []) { question := none, top_k := 15 }
      = (.error .missingQuestion, []) :=
  missing_question_rejected_before_network _ _ _ (Or.inl rfl)

/-- A point's payload as `search_vectors` reads it (`vector_db.py` lines
44-51): both the `"text"` and the `"source_id"` key may be absent. -/
structure PointPayload where
  text : Option String
  source_id : Option String
deriving DecidableEq, Repr

/-- A scored point as returned by `client.query_points`: an optional
payload (`p.payload or {}` in the source) and the similarity score. -/
structure ScoredPoint where
  payload : Option PointPayload
  score : ℚ
deriving DecidableEq, Repr

/-- The per-point conversion of `search_vectors` (`vector_db.py` lines
44-52): `text = payload.get("text"); if text:` keeps the point only when
the text key is present and non-empty (Python truthiness), and reads the
source as `payload.get("source_id", "")`. -/
def candidateOfPoint (p : ScoredPoint) : Option SearchCandidate :=
  match (p.payload.getD ⟨none, none⟩).text with
  | none => none
  | some t =>
    if t = "" then none
    else some ⟨t, (p.payload.getD ⟨none, none⟩).source_id.getD "", p.score⟩

/-- The dict `search_vectors` returns (`vector_db.py` lines 54-58). -/
structure StoreSearchOutput where
  context : List String
  sources : List String
  results : List SearchCandidate
deriving DecidableEq, Repr

/-- `QdrantStorage.search_vectors` after the query (`vector_db.py` lines
43-58): convert each returned point, dropping the textless ones, and
assemble the contexts, the distinct sources and the result list. -/
def search_vectors (points : List ScoredPoint) : StoreSearchOutput :=
  let results := points.filterMap candidateOfPoint
  { context := results.map (fun r => r.text),
    sources := (results.map (fun r => r.source)).dedup,
    results := results }

lemma countP_lt_length_of_not {α : Type} (p : α → Bool) {l : List α}
    {a : α} (ha : a ∈ l) (hpa : p a = false) :
    l.countP p < l.length := by
  induction l with
  | nil => cases ha
  | cons b l ih =>
    rw [List.countP_cons, List.length_cons]
    rcases List.mem_cons.mp ha with he | hmem
    · rw [← he, hpa]
      simpa using Nat.lt_succ_of_le (List.countP_le_length p)
    · have hlt := ih hmem
      split <;> omega

/-- C10: points whose payload misses the text key or carries an empty text
are silently dropped — every surviving candidate has non-empty text, a
point set containing such a point yields strictly fewer results than the
store returned points (so fewer than `top_k` even when `top_k` points
passed the score threshold), and a concrete three-point reply above the
threshold keeps only the first point, reporting its missing `source_id`
as `""`. -/
theorem search_vectors_drops_textless_points (points : List ScoredPoint) :
    (∀ r ∈ (search_vectors points).results, r.text ≠ "")
    ∧ ((∃ p ∈ points, (candidateOfPoint p).isNone) →
        (search_vectors points).results.length < points.length)
    ∧ search_vectors
        [{ payload := some { text := some "hello", source_id := none }, score := (9 : ℚ) },
         { payload := some { text := none, source_id := some "doc" }, score := (8 : ℚ) },
         { payload := some { text := some "", source_id := some "doc2" }, score := (7 : ℚ) }]
      = { context := ["hello"], sources := [""],
          results := [{ text := "hello", source := "", score := (9 : ℚ) }] } := by
  refine ⟨?_, ?_, rfl⟩
  · intro r hr
    obtain ⟨p, _, he⟩ := List.mem_filterMap.mp hr
    unfold candidateOfPoint at he
    split at he
    · cases he
    · split at he
      · cases he
      · rename_i ht
        cases he
        exact ht
  · intro ⟨p, hp, hnone⟩
    have hlen : (search_vectors points).results.length
        = points.countP (fun q => (candidateOfPoint q).isSome) := by
      simp [search_vectors, List.length_filterMap_eq_countP]
    rw [hlen]
    have hfalse : (candidateOfPoint p).isSome = false := by
      rw [Option.isNone_iff_eq_none] at hnone
      simp [hnone]
    exact countP_lt_length_of_not _ hp hfalse
